import Mathlib

/-!
# Completion dispatch of the `rdma` library (src/src/rdma.cc, src/include/rdma.h)

A shallow embedding of the `Selector` (callback registry, poll loop, destructor) and of the
`Channel` send/receive variants built on it, followed by theorems about them.

Modelling conventions
* `ibv_cq*` handles, `wr_id`, keys and addresses are natural numbers.
* `std::map<ibv_cq*, DoneCallBack>` is an association list kept in ascending key order
  (the iteration order of `std::map`), with at most one entry per key.
* A callback is an uninterpreted function value for the Selector.  Calling it is recorded in the
  invocation log `State.invoked`; the lambda built by the future variants of
  `Channel::send` / `Channel::recv` additionally resolves the promise it captured.
* The verbs primitives (`rdma_post_recv`, `rdma_post_send`, `ibv_poll_cq`,
  `rdma_get_recv_comp`, `rdma_get_send_comp`) are external: their return values are
  arguments of the embedded functions, and every call is recorded in `State.hw`.
* Every embedded function is one critical section of the source (the body executed while
  `mu_` is held, or one whole `Channel` call); callbacks return normally and do not re-enter
  the Selector.
-/

namespace rdma

/-! ## Data model -/

/-- The handle `ibv_cq*` of a completion queue. -/
abbrev Cq := Nat

/-- The fields of `ibv_wc` the library and its tests read. -/
structure ibv_wc where
  wr_id : Nat
  status : Nat
  byte_len : Nat
deriving DecidableEq, Repr

/-- The status code `IBV_WC_SUCCESS`. -/
def IBV_WC_SUCCESS : Nat := 0

/-- The exception types of rdma.cc (lines 12-30), and the `std::future_error` conditions the
C++ runtime raises on the promises used by the future variants. -/
inductive Exception where
  | addrinfo_exception
  | buffer_exception
  | channel_exception
  | broken_promise
  | promise_already_satisfied
deriving DecidableEq, Repr

/-- The message `what()` of each exception. -/
def Exception.what : Exception → String
  | .addrinfo_exception => "fail to resolve address"
  | .buffer_exception => "fail to register memory"
  | .channel_exception => "channel fail"
  | .broken_promise => "std::future_error: Broken promise"
  | .promise_already_satisfied => "std::future_error: Promise already satisfied"

/-- A ready `std::future<ibv_wc>`: what a callback receives (`p.get_future()` after
`p.set_value(wc)` or `p.set_exception(...)`), and what a resolved handle holds. -/
inductive Future where
  | value (wc : ibv_wc)
  | exception (e : Exception)
deriving DecidableEq, Repr

/-- The shared state of a `std::promise<ibv_wc>`. -/
inductive PromiseState where
  | pending
  | ready (f : Future)
deriving DecidableEq, Repr

/-- The function values of type `Selector::DoneCallBack` occurring in the program: a callback
supplied by the caller (identified by `id`), or the lambda of the future variants
(rdma.cc lines 255-261 and 267-273), which captures the shared promise number `promise`. -/
inductive DoneCallBack where
  | user (id : Nat)
  | resolve (promise : Nat)
deriving DecidableEq, Repr

/-- A call of an external verbs primitive. -/
inductive HwCall where
  | poll_cq (cq : Cq)
  | post_recv (addr : Int) (length : Nat)
  | post_send (addr : Int) (length : Nat)
  | get_recv_comp
  | get_send_comp
deriving DecidableEq, Repr

/-- The members `callbacks_` and `done` of the Selector, the promises created by the future
variants, the log of callback invocations and the log of verbs calls. -/
structure State where
  callbacks_ : List (Cq × DoneCallBack)
  done : Bool
  promises : List PromiseState
  invoked : List (DoneCallBack × Future)
  hw : List HwCall
deriving DecidableEq, Repr

/-- The fields of the memory region `mr_` behind a `Buffer`. -/
structure Buffer where
  addr : Nat
  length : Nat
  lkey : Nat
  rkey : Nat
deriving DecidableEq, Repr

/-- The two completion queues of the endpoint `id_` behind a `Channel`. -/
structure Channel where
  recv_cq : Cq
  send_cq : Cq
deriving DecidableEq, Repr

/-! ## The registry `std::map<ibv_cq*, DoneCallBack>` -/

/-- Lookup `callbacks_.find(cq)`. -/
def Registry.find (cq : Cq) : List (Cq × DoneCallBack) → Option DoneCallBack
  | [] => none
  | (k, v) :: rest => if cq = k then some v else Registry.find cq rest

/-- Assignment `callbacks_[cq] = done`: overwrite the entry of `cq`, or insert it in key
order. -/
def Registry.assign (cq : Cq) (cb : DoneCallBack) :
    List (Cq × DoneCallBack) → List (Cq × DoneCallBack)
  | [] => [(cq, cb)]
  | (k, v) :: rest =>
    if cq < k then (cq, cb) :: (k, v) :: rest
    else if cq = k then (cq, cb) :: rest
    else (k, v) :: Registry.assign cq cb rest

/-- Removal `callbacks_.erase(cq)`. -/
def Registry.erase (cq : Cq) : List (Cq × DoneCallBack) → List (Cq × DoneCallBack)
  | [] => []
  | (k, v) :: rest => if cq = k then rest else (k, v) :: Registry.erase cq rest

/-- The representation invariant of `std::map`: keys strictly ascending, hence unique. -/
def Registry.WF (r : List (Cq × DoneCallBack)) : Prop :=
  r.Pairwise (fun a b => a.1 < b.1)

instance (r : List (Cq × DoneCallBack)) : Decidable (Registry.WF r) :=
  inferInstanceAs (Decidable (r.Pairwise (fun (a b : Cq × DoneCallBack) => a.1 < b.1)))

/-! ## Promises and callbacks -/

/-- The call `f.get()` on a ready future: the value, or the stored exception rethrown. -/
def Future.get : Future → Except Exception ibv_wc
  | .value wc => .ok wc
  | .exception e => .error e

/-- The call `promise.set_value(wc)`. -/
def PromiseState.set_value (st : PromiseState) (wc : ibv_wc) : Except Exception PromiseState :=
  match st with
  | .pending => .ok (.ready (.value wc))
  | .ready _ => .error .promise_already_satisfied

/-- The call `promise.set_exception(e)`. -/
def PromiseState.set_exception (st : PromiseState) (e : Exception) :
    Except Exception PromiseState :=
  match st with
  | .pending => .ok (.ready (.exception e))
  | .ready _ => .error .promise_already_satisfied

/-- The body of the lambda of the future variants (rdma.cc lines 256-260):
`try { promise->set_value(f.get()); } catch (std::exception e)
 { promise->set_exception(std::current_exception()); }`.
Every exception of the model derives from `std::exception`, so the handler catches all. -/
def PromiseState.resolve (st : PromiseState) (f : Future) : Except Exception PromiseState :=
  match f.get >>= st.set_value with
  | .ok st1 => .ok st1
  | .error e => st.set_exception e

/-- The destructor of the last `std::promise` owner: a shared state that is not ready is
abandoned with `std::future_error(broken_promise)`. -/
def PromiseState.abandon : PromiseState → PromiseState
  | .pending => .ready (.exception .broken_promise)
  | .ready f => .ready f

/-- The effect of the call `done(f)` on the promises.  A callback of the caller does not touch
them.  The lambda runs `PromiseState.resolve` on its promise; when that raises (the promise was
already satisfied) the exception leaves the callback with the stored result unchanged. -/
def DoneCallBack.call (cb : DoneCallBack) (f : Future) (ps : List PromiseState) :
    List PromiseState :=
  match cb with
  | .user _ => ps
  | .resolve p =>
    match ps[p]? with
    | some st =>
      match st.resolve f with
      | .ok st1 => ps.set p st1
      | .error _ => ps
    | none => ps

/-- The effect of destroying the function value `cb` on the promises: the lambda of a future
variant is the only owner of its promise once the variant has returned, so destroying it
abandons the promise. -/
def DoneCallBack.destroy (cb : DoneCallBack) (ps : List PromiseState) : List PromiseState :=
  match cb with
  | .user _ => ps
  | .resolve p =>
    match ps[p]? with
    | some st => ps.set p st.abandon
    | none => ps

/-- The call `cb(f)`: logged, with its effect on the promises. -/
def State.invoke (cb : DoneCallBack) (f : Future) (s : State) : State :=
  { s with invoked := s.invoked ++ [(cb, f)], promises := cb.call f s.promises }

/-- A call of a verbs primitive, logged. -/
def State.hwcall (c : HwCall) (s : State) : State :=
  { s with hw := s.hw ++ [c] }

/-! ## Selector -/

/-- The state set up by `Selector::Selector` (rdma.cc lines 115-116), with empty logs. -/
def Selector.init : State :=
  { callbacks_ := [], done := false, promises := [], invoked := [], hw := [] }

/-- The statement `callbacks_.erase(cq)` on the state: the entry goes and its function value is
destroyed. -/
def State.erase (cq : Cq) (s : State) : State :=
  { s with
    callbacks_ := Registry.erase cq s.callbacks_,
    promises :=
      match Registry.find cq s.callbacks_ with
      | some cb => cb.destroy s.promises
      | none => s.promises }

/-- The first loop of a sweep (rdma.cc lines 121-142) over the entries `its`, with `poll cq` the
return value and completion of `ibv_poll_cq(cq, 1, &wc)`; `finished` is `finished_cqs`. -/
def Selector.pollAll (poll : Cq → Int × ibv_wc) :
    List (Cq × DoneCallBack) → State → List Cq → State × List Cq
  | [], s, finished => (s, finished)
  | iter :: rest, s, finished =>
    let s1 := s.hwcall (.poll_cq iter.1)
    if (poll iter.1).1 = 0 then
      Selector.pollAll poll rest s1 finished
    else if (poll iter.1).1 = 1 then
      Selector.pollAll poll rest (s1.invoke iter.2 (.value (poll iter.1).2))
        (finished ++ [iter.1])
    else
      Selector.pollAll poll rest (s1.invoke iter.2 (.exception .channel_exception))
        (finished ++ [iter.1])

/-- The second loop of a sweep (rdma.cc lines 143-145). -/
def Selector.eraseAll : List Cq → State → State
  | [], s => s
  | cq :: rest, s => Selector.eraseAll rest (s.erase cq)

/-- One iteration body of the poll loop (rdma.cc lines 120-146). -/
def Selector.sweep (poll : Cq → Int × ibv_wc) (s : State) : State :=
  let r := Selector.pollAll poll s.callbacks_ s []
  Selector.eraseAll r.2 r.1

/-- One turn of `while (!done) { ... }` (rdma.cc line 119). -/
def Selector.iteration (poll : Cq → Int × ibv_wc) (s : State) : State :=
  if s.done then s else Selector.sweep poll s

/-- The method `Selector::register_callback` (rdma.cc lines 151-154); the function value that was
stored under `cq`, if any, is destroyed by the assignment. -/
def Selector.register_callback (cq : Cq) (done : DoneCallBack) (s : State) : State :=
  { s with
    callbacks_ := Registry.assign cq done s.callbacks_,
    promises :=
      match Registry.find cq s.callbacks_ with
      | some old => old.destroy s.promises
      | none => s.promises }

/-- The method `Selector::unregister` (rdma.cc lines 156-159). -/
def Selector.unregister (cq : Cq) (s : State) : State :=
  s.erase cq

/-- The loop of the destructor (rdma.cc lines 164-172). -/
def Selector.failAll : List (Cq × DoneCallBack) → State → State
  | [], s => s
  | iter :: rest, s =>
    Selector.failAll rest (s.invoke iter.2 (.exception .channel_exception))

/-- The statement `callbacks_.clear()` on the promises: every stored function value is
destroyed. -/
def Selector.destroyAll : List (Cq × DoneCallBack) → List PromiseState → List PromiseState
  | [], ps => ps
  | iter :: rest, ps => Selector.destroyAll rest (iter.2.destroy ps)

/-- The destructor `Selector::~Selector` (rdma.cc lines 161-175), up to `thread_.join()`. -/
def Selector.shutdown (s : State) : State :=
  let s1 := { s with done := true }
  let s2 := Selector.failAll s1.callbacks_ s1
  { s2 with callbacks_ := [], promises := Selector.destroyAll s2.callbacks_ s2.promises }

/-! ## Channel -/

/-- The address and length arguments of `rdma_post_recv` in `Channel::recv` and
`Channel::recv_sync` (rdma.cc lines 229 and 278):
`reinterpret_cast<char*>(buffer.addr()) + offset, buffer.length()`.  The sum is taken in the
integers: `offset` is a signed `ptrdiff_t`, and a registered region lies far below the end of
the address space, so the pointer addition does not wrap. -/
def Channel.recv_request (buffer : Buffer) (offset : Int) : Int × Nat :=
  ((buffer.addr : Int) + offset, buffer.length)

/-- The address and length arguments of `rdma_post_send` in `Channel::send` and
`Channel::send_sync` (rdma.cc lines 242 and 290). -/
def Channel.send_request (buffer : Buffer) (length : Nat) (offset : Int) : Int × Nat :=
  ((buffer.addr : Int) + offset, length)

/-- The callback variant `Channel::recv(Buffer&, ptrdiff_t, DoneCallBack)` (rdma.cc lines
227-238); `post_ret` is the return value of `rdma_post_recv`.  On a failed post the exception
goes into the local promise `p`, which nothing reads, and `done` is destroyed with the call. -/
def Channel.recv (ch : Channel) (buffer : Buffer) (offset : Int) (done : DoneCallBack)
    (post_ret : Int) (s : State) : State :=
  let rq := Channel.recv_request buffer offset
  let s1 := s.hwcall (.post_recv rq.1 rq.2)
  if post_ret ≠ 0 then
    { s1 with promises := done.destroy s1.promises }
  else
    Selector.register_callback ch.recv_cq done s1

/-- The callback variant `Channel::send(const Buffer&, size_t, ptrdiff_t, DoneCallBack)`
(rdma.cc lines 240-251); `post_ret` is the return value of `rdma_post_send`. -/
def Channel.send (ch : Channel) (buffer : Buffer) (length : Nat) (offset : Int)
    (done : DoneCallBack) (post_ret : Int) (s : State) : State :=
  let rq := Channel.send_request buffer length offset
  let s1 := s.hwcall (.post_send rq.1 rq.2)
  if post_ret ≠ 0 then
    { s1 with promises := done.destroy s1.promises }
  else
    Selector.register_callback ch.send_cq done s1

/-- The future variant `Channel::recv(Buffer&, ptrdiff_t)` (rdma.cc lines 253-263): the number
of the new promise is the returned handle. -/
def Channel.recv_future (ch : Channel) (buffer : Buffer) (offset : Int) (post_ret : Int)
    (s : State) : Nat × State :=
  let promise := s.promises.length
  let s1 := { s with promises := s.promises ++ [PromiseState.pending] }
  (promise, Channel.recv ch buffer offset (.resolve promise) post_ret s1)

/-- The future variant `Channel::send(const Buffer&, size_t, ptrdiff_t)` (rdma.cc lines
265-275). -/
def Channel.send_future (ch : Channel) (buffer : Buffer) (length : Nat) (offset : Int)
    (post_ret : Int) (s : State) : Nat × State :=
  let promise := s.promises.length
  let s1 := { s with promises := s.promises ++ [PromiseState.pending] }
  (promise, Channel.send ch buffer length offset (.resolve promise) post_ret s1)

/-- The method `Channel::recv_sync` (rdma.cc lines 277-287); `post_ret` is the return value of
`rdma_post_recv`, `comp` the return value and completion of `rdma_get_recv_comp`. -/
def Channel.recv_sync (_ch : Channel) (buffer : Buffer) (offset : Int) (post_ret : Int)
    (comp : Int × ibv_wc) (s : State) : Except Exception ibv_wc × State :=
  let rq := Channel.recv_request buffer offset
  let s1 := s.hwcall (.post_recv rq.1 rq.2)
  if post_ret ≠ 0 then
    (.error .channel_exception, s1)
  else
    let s2 := s1.hwcall .get_recv_comp
    if comp.1 < 0 then (.error .channel_exception, s2) else (.ok comp.2, s2)

/-- The method `Channel::send_sync` (rdma.cc lines 289-299); `post_ret` is the return value of
`rdma_post_send`, `comp` the return value and completion of `rdma_get_send_comp`. -/
def Channel.send_sync (_ch : Channel) (buffer : Buffer) (length : Nat) (offset : Int)
    (post_ret : Int) (comp : Int × ibv_wc) (s : State) : Except Exception ibv_wc × State :=
  let rq := Channel.send_request buffer length offset
  let s1 := s.hwcall (.post_send rq.1 rq.2)
  if post_ret ≠ 0 then
    (.error .channel_exception, s1)
  else
    let s2 := s1.hwcall .get_send_comp
    if comp.1 < 0 then (.error .channel_exception, s2) else (.ok comp.2, s2)

/-! ## Traces of Selector steps -/

/-- The operations on a Selector: the two registry methods, one turn of the poll loop against
the poll results `poll`, and the destructor. -/
inductive Step where
  | register_callback (cq : Cq) (done : DoneCallBack)
  | unregister (cq : Cq)
  | sweep (poll : Cq → Int × ibv_wc)
  | shutdown

/-- The effect of one step. -/
def Selector.step (s : State) : Step → State
  | .register_callback cq done => Selector.register_callback cq done s
  | .unregister cq => Selector.unregister cq s
  | .sweep poll => Selector.iteration poll s
  | .shutdown => Selector.shutdown s

/-- The effect of a trace of steps, first step first. -/
def Selector.run (s : State) : List Step → State
  | [] => s
  | x :: rest => Selector.run (Selector.step s x) rest

/-- The callback a step registers, if it is a registration. -/
def Step.registers : Step → List DoneCallBack
  | .register_callback _ done => [done]
  | _ => []

/-- The callbacks registered along a trace, in order. -/
def Selector.registered : List Step → List DoneCallBack
  | [] => []
  | x :: rest => x.registers ++ Selector.registered rest

/-- The callback a step takes out of the registry `r` by `unregister`, if any. -/
def Step.removes (r : List (Cq × DoneCallBack)) : Step → List DoneCallBack
  | .unregister cq => (Registry.find cq r).toList
  | _ => []

/-- The callbacks removed by `unregister` along a trace started in `s`. -/
def Selector.removed (s : State) : List Step → List DoneCallBack
  | [] => []
  | x :: rest => x.removes s.callbacks_ ++ Selector.removed (Selector.step s x) rest

/-- The caller discipline for one step in the registry `r`: `register_callback` is applied only
to a queue that has no registration at that moment. -/
def Step.Allowed (r : List (Cq × DoneCallBack)) : Step → Prop
  | .register_callback cq _ => Registry.find cq r = none
  | _ => True

/-- The caller discipline along a trace started in `s`. -/
def Selector.Disciplined (s : State) : List Step → Prop
  | [] => True
  | x :: rest => x.Allowed s.callbacks_ ∧ Selector.Disciplined (Selector.step s x) rest

/-- How many times the callback `c` has been invoked. -/
def State.calls (c : DoneCallBack) (s : State) : Nat :=
  (s.invoked.map Prod.fst).count c

/-- The bookkeeping invariant of a Selector whose registrations so far are `R` and whose
registrations removed by `unregister` are `G`: the registry is a well-formed map, and the
pending callbacks, the removed callbacks and the invoked callbacks together are the registered
callbacks, each as often as it was registered. -/
structure Selector.Inv (s : State) (R G : List DoneCallBack) : Prop where
  wf : Registry.WF s.callbacks_
  balance : (s.callbacks_.map Prod.snd ++ (G ++ s.invoked.map Prod.fst)).Perm R

instance Step.decAllowed (r : List (Cq × DoneCallBack)) : (x : Step) → Decidable (x.Allowed r)
  | .register_callback cq _ => inferInstanceAs (Decidable (Registry.find cq r = none))
  | .unregister _ => isTrue trivial
  | .sweep _ => isTrue trivial
  | .shutdown => isTrue trivial

/-- The caller discipline along a trace is decidable. -/
def Selector.decDisciplined : (s : State) → (t : List Step) →
    Decidable (Selector.Disciplined s t)
  | _, [] => isTrue trivial
  | s, x :: rest =>
    have := Selector.decDisciplined (Selector.step s x) rest
    inferInstanceAs
      (Decidable (x.Allowed s.callbacks_ ∧ Selector.Disciplined (Selector.step s x) rest))

instance (s : State) (t : List Step) : Decidable (Selector.Disciplined s t) :=
  Selector.decDisciplined s t

/-! ## Concrete scenarios -/

/-- A completion with a successful status. -/
def wcOk : ibv_wc := { wr_id := 7, status := IBV_WC_SUCCESS, byte_len := 16 }

/-- A completion whose status is not `IBV_WC_SUCCESS` (5 is `IBV_WC_WR_FLUSH_ERR`). -/
def wcFlushed : ibv_wc := { wr_id := 7, status := 5, byte_len := 0 }

/-- Poll results with no completion on any queue. -/
def pollNone : Cq → Int × ibv_wc := fun _ => (0, { wr_id := 0, status := 0, byte_len := 0 })

/-- Poll results with the single completion `wc` on queue `q` and none elsewhere. -/
def pollOne (q : Cq) (wc : ibv_wc) : Cq → Int × ibv_wc :=
  fun cq => if cq = q then (1, wc) else (0, { wr_id := 0, status := 0, byte_len := 0 })

/-- Scenario 1 of the specification: queue 3 is registered with callback 1, three sweeps see no
completion and the fourth sees one. -/
def scenario1 : List Step :=
  [ .register_callback 3 (.user 1), .sweep pollNone, .sweep pollNone, .sweep pollNone,
    .sweep (pollOne 3 wcOk) ]

/-- Scenario 4 of the specification: queues 1 and 2 registered with callbacks 1 and 2. -/
def scenario4 : State :=
  Selector.register_callback 2 (.user 2) (Selector.register_callback 1 (.user 1) Selector.init)

/-- A registered buffer of 8 bytes at address 1000. -/
def buffer8 : Buffer := { addr := 1000, length := 8, lkey := 1, rkey := 2 }

/-- A channel with receive queue 1 and send queue 2. -/
def channel12 : Channel := { recv_cq := 1, send_cq := 2 }

/-! ## Lemmas on the registry -/

theorem Registry.WF_tail {e : Cq × DoneCallBack} {r : List (Cq × DoneCallBack)}
    (h : Registry.WF (e :: r)) : Registry.WF r :=
  (List.pairwise_cons.mp h).2

theorem Registry.WF_head {e : Cq × DoneCallBack} {r : List (Cq × DoneCallBack)}
    (h : Registry.WF (e :: r)) : ∀ x ∈ r, e.1 < x.1 :=
  (List.pairwise_cons.mp h).1

theorem Registry.erase_eq_filter {r : List (Cq × DoneCallBack)} (h : Registry.WF r) (cq : Cq) :
    Registry.erase cq r = r.filter (fun e => decide (e.1 ≠ cq)) := by
  induction r with
  | nil => rfl
  | cons e rest ih =>
    obtain ⟨k, v⟩ := e
    have hlt := Registry.WF_head h
    have hwf := Registry.WF_tail h
    by_cases hk : cq = k
    · subst hk
      have hrest : rest.filter (fun e => decide (e.1 ≠ cq)) = rest := by
        apply List.filter_eq_self.mpr
        intro x hx
        have hx1 : cq < x.1 := hlt x hx
        exact decide_eq_true (Nat.ne_of_gt hx1)
      rw [List.filter_cons_of_neg (by simp), hrest]
      simp [Registry.erase]
    · have hk2 : ¬ k = cq := fun h => hk h.symm
      rw [List.filter_cons_of_pos (by simpa using hk2), ← ih hwf]
      simp [Registry.erase, hk]

theorem Registry.find_eq_none_iff {r : List (Cq × DoneCallBack)} {cq : Cq} :
    Registry.find cq r = none ↔ ∀ e ∈ r, e.1 ≠ cq := by
  induction r with
  | nil => simp [Registry.find]
  | cons e rest ih =>
    obtain ⟨k, v⟩ := e
    by_cases hk : cq = k
    · subst hk; simp [Registry.find]
    · have hk2 : ¬ k = cq := fun h => hk h.symm
      simp [Registry.find, hk, hk2, ih]

theorem Registry.find_eq_some_iff {r : List (Cq × DoneCallBack)} (h : Registry.WF r) {cq : Cq}
    {cb : DoneCallBack} : Registry.find cq r = some cb ↔ (cq, cb) ∈ r := by
  induction r with
  | nil => simp [Registry.find]
  | cons e rest ih =>
    obtain ⟨k, v⟩ := e
    have hlt := Registry.WF_head h
    have hwf := Registry.WF_tail h
    by_cases hk : cq = k
    · subst hk
      constructor
      · intro hf
        simp [Registry.find] at hf
        simp [hf]
      · intro hm
        rcases List.mem_cons.mp hm with h1 | h1
        · simp [Registry.find] 
          exact (Prod.mk.inj h1).2.symm
        · have := hlt _ h1
          simp at this
    · have hne : ¬ ((cq, cb) = (k, v)) := fun h => hk (Prod.mk.inj h).1
      simp [Registry.find, hk, ih hwf, hne]

theorem Registry.erase_of_find_none {r : List (Cq × DoneCallBack)} {cq : Cq}
    (h : Registry.find cq r = none) : Registry.erase cq r = r := by
  induction r with
  | nil => rfl
  | cons e rest ih =>
    obtain ⟨k, v⟩ := e
    by_cases hk : cq = k
    · subst hk; simp [Registry.find] at h
    · simp [Registry.find, hk] at h
      simp [Registry.erase, hk, ih h]

theorem Registry.WF_erase {r : List (Cq × DoneCallBack)} (h : Registry.WF r) (cq : Cq) :
    Registry.WF (Registry.erase cq r) := by
  rw [Registry.erase_eq_filter h]
  exact List.Pairwise.filter _ h

theorem Registry.find_erase_self {r : List (Cq × DoneCallBack)} (h : Registry.WF r) (cq : Cq) :
    Registry.find cq (Registry.erase cq r) = none := by
  rw [Registry.find_eq_none_iff, Registry.erase_eq_filter h]
  intro e he
  simpa using (List.mem_filter.mp he).2

theorem Registry.find_erase_of_ne {r : List (Cq × DoneCallBack)} {cq q : Cq} (hne : q ≠ cq) :
    Registry.find q (Registry.erase cq r) = Registry.find q r := by
  induction r with
  | nil => rfl
  | cons e rest ih =>
    obtain ⟨k, v⟩ := e
    by_cases hk : cq = k
    · subst hk
      simp [Registry.erase, Registry.find, hne]
    · by_cases hq : q = k
      · simp [Registry.erase, Registry.find, hk, hq]
      · simp [Registry.erase, Registry.find, hk, hq, ih]

theorem Registry.find_assign (r : List (Cq × DoneCallBack)) (cq q : Cq) (cb : DoneCallBack) :
    Registry.find q (Registry.assign cq cb r) = if q = cq then some cb else Registry.find q r := by
  induction r with
  | nil => simp [Registry.assign, Registry.find]
  | cons e rest ih =>
    obtain ⟨k, v⟩ := e
    by_cases h1 : cq < k
    · simp [Registry.assign, h1, Registry.find]
    · by_cases h2 : cq = k
      · subst h2
        by_cases hq : q = cq <;> simp [Registry.assign, Registry.find, hq]
      · by_cases hq : q = k
        · subst hq
          have hne : ¬ q = cq := fun h => h2 h.symm
          simp [Registry.assign, h1, h2, Registry.find, hne]
        · simp [Registry.assign, h1, h2, Registry.find, hq, ih]

theorem Registry.assign_perm {r : List (Cq × DoneCallBack)} {cq : Cq}
    (h : Registry.find cq r = none) (cb : DoneCallBack) :
    (Registry.assign cq cb r).Perm ((cq, cb) :: r) := by
  induction r with
  | nil => simp [Registry.assign]
  | cons e rest ih =>
    obtain ⟨k, v⟩ := e
    by_cases h2 : cq = k
    · subst h2; simp [Registry.find] at h
    · simp [Registry.find, h2] at h
      by_cases h1 : cq < k
      · simp [Registry.assign, h1]
      · simp only [Registry.assign, h1, h2, if_false]
        exact ((ih h).cons (k, v)).trans (List.Perm.swap _ _ _)

theorem Registry.WF_assign {r : List (Cq × DoneCallBack)} (h : Registry.WF r) (cq : Cq)
    (cb : DoneCallBack) : Registry.WF (Registry.assign cq cb r) := by
  induction r with
  | nil => simp [Registry.assign, Registry.WF]
  | cons e rest ih =>
    obtain ⟨k, v⟩ := e
    have hlt : ∀ x ∈ rest, k < x.1 := Registry.WF_head h
    have hwf := Registry.WF_tail h
    by_cases h1 : cq < k
    · simp only [Registry.assign, h1, if_true]
      refine List.pairwise_cons.mpr ⟨?_, h⟩
      intro x hx
      rcases List.mem_cons.mp hx with hx | hx
      · subst hx; exact h1
      · exact Nat.lt_trans h1 (hlt x hx)
    · by_cases h2 : cq = k
      · subst h2
        simp only [Registry.assign, h1, if_false, if_true]
        exact List.pairwise_cons.mpr ⟨hlt, hwf⟩
      · simp only [Registry.assign, h1, h2, if_false]
        refine List.pairwise_cons.mpr ⟨?_, ih hwf⟩
        intro x hx
        have hkcq : k < cq :=
          Nat.lt_of_le_of_ne (Nat.le_of_not_lt h1) (fun h => h2 h.symm)
        by_cases hxe : x.1 = cq
        · show k < x.1
          rw [hxe]; exact hkcq
        · have hf : Registry.find x.1 (Registry.assign cq cb rest) = Registry.find x.1 rest := by
            rw [Registry.find_assign]; simp [hxe]
          have hx2 : Registry.find x.1 (Registry.assign cq cb rest) ≠ none := by
            intro hn
            exact (Registry.find_eq_none_iff.mp hn) x hx rfl
          rw [hf] at hx2
          have : ¬ ∀ e ∈ rest, e.1 ≠ x.1 :=
            fun hall => hx2 (Registry.find_eq_none_iff.mpr hall)
          push_neg at this
          obtain ⟨y, hy, hyx⟩ := this
          show k < x.1
          rw [← hyx]; exact hlt y hy

/-! ## Lemmas on the Selector operations -/

@[simp] theorem State.invoke_callbacks (cb : DoneCallBack) (f : Future) (s : State) :
    (s.invoke cb f).callbacks_ = s.callbacks_ := rfl

@[simp] theorem State.invoke_done (cb : DoneCallBack) (f : Future) (s : State) :
    (s.invoke cb f).done = s.done := rfl

@[simp] theorem State.invoke_hw (cb : DoneCallBack) (f : Future) (s : State) :
    (s.invoke cb f).hw = s.hw := rfl

@[simp] theorem State.invoke_invoked (cb : DoneCallBack) (f : Future) (s : State) :
    (s.invoke cb f).invoked = s.invoked ++ [(cb, f)] := rfl

@[simp] theorem State.hwcall_callbacks (c : HwCall) (s : State) :
    (s.hwcall c).callbacks_ = s.callbacks_ := rfl

@[simp] theorem State.hwcall_done (c : HwCall) (s : State) : (s.hwcall c).done = s.done := rfl

@[simp] theorem State.hwcall_hw (c : HwCall) (s : State) : (s.hwcall c).hw = s.hw ++ [c] := rfl

@[simp] theorem State.hwcall_invoked (c : HwCall) (s : State) :
    (s.hwcall c).invoked = s.invoked := rfl

@[simp] theorem State.hwcall_promises (c : HwCall) (s : State) :
    (s.hwcall c).promises = s.promises := rfl

@[simp] theorem State.erase_callbacks (cq : Cq) (s : State) :
    (s.erase cq).callbacks_ = Registry.erase cq s.callbacks_ := rfl

@[simp] theorem State.erase_done (cq : Cq) (s : State) : (s.erase cq).done = s.done := rfl

@[simp] theorem State.erase_hw (cq : Cq) (s : State) : (s.erase cq).hw = s.hw := rfl

@[simp] theorem State.erase_invoked (cq : Cq) (s : State) :
    (s.erase cq).invoked = s.invoked := rfl

theorem Selector.pollAll_callbacks (poll : Cq → Int × ibv_wc) (its : List (Cq × DoneCallBack))
    (s : State) (fin : List Cq) :
    (Selector.pollAll poll its s fin).1.callbacks_ = s.callbacks_ := by
  induction its generalizing s fin with
  | nil => rfl
  | cons e rest ih =>
    simp only [Selector.pollAll]
    split
    · rw [ih]; rfl
    · split <;> (rw [ih]; rfl)

theorem Selector.pollAll_done (poll : Cq → Int × ibv_wc) (its : List (Cq × DoneCallBack))
    (s : State) (fin : List Cq) :
    (Selector.pollAll poll its s fin).1.done = s.done := by
  induction its generalizing s fin with
  | nil => rfl
  | cons e rest ih =>
    simp only [Selector.pollAll]
    split
    · rw [ih]; rfl
    · split <;> (rw [ih]; rfl)

theorem Selector.pollAll_hw (poll : Cq → Int × ibv_wc) (its : List (Cq × DoneCallBack))
    (s : State) (fin : List Cq) :
    (Selector.pollAll poll its s fin).1.hw = s.hw ++ its.map (fun e => HwCall.poll_cq e.1) := by
  induction its generalizing s fin with
  | nil => simp [Selector.pollAll]
  | cons e rest ih =>
    simp only [Selector.pollAll]
    split
    · rw [ih]; simp
    · split <;> (rw [ih]; simp)

theorem Selector.pollAll_invoked (poll : Cq → Int × ibv_wc) (its : List (Cq × DoneCallBack))
    (s : State) (fin : List Cq) :
    (Selector.pollAll poll its s fin).1.invoked =
      s.invoked ++ its.filterMap (fun e =>
        if (poll e.1).1 = 0 then none
        else if (poll e.1).1 = 1 then some (e.2, Future.value (poll e.1).2)
        else some (e.2, Future.exception Exception.channel_exception)) := by
  induction its generalizing s fin with
  | nil => simp [Selector.pollAll]
  | cons e rest ih =>
    simp only [Selector.pollAll]
    by_cases h0 : (poll e.1).1 = 0
    · rw [if_pos h0, ih, List.filterMap_cons_none (by simp [h0])]; simp
    · by_cases h1 : (poll e.1).1 = 1
      · rw [if_neg h0, if_pos h1, ih, List.filterMap_cons_some (by simp [h1]; rfl)]; simp
      · rw [if_neg h0, if_neg h1, ih, List.filterMap_cons_some (by simp [h0, h1]; rfl)]; simp

theorem Selector.pollAll_finished (poll : Cq → Int × ibv_wc) (its : List (Cq × DoneCallBack))
    (s : State) (fin : List Cq) :
    (Selector.pollAll poll its s fin).2 =
      fin ++ (its.filter (fun e => decide ((poll e.1).1 ≠ 0))).map Prod.fst := by
  induction its generalizing s fin with
  | nil => simp [Selector.pollAll]
  | cons e rest ih =>
    simp only [Selector.pollAll]
    by_cases h0 : (poll e.1).1 = 0
    · rw [if_pos h0, ih, List.filter_cons_of_neg (by simpa using h0)]
    · rw [List.filter_cons_of_pos (by simpa using h0)]
      by_cases h1 : (poll e.1).1 = 1
      · rw [if_neg h0, if_pos h1, ih]; simp
      · rw [if_neg h0, if_neg h1, ih]; simp

theorem Selector.eraseAll_invoked (cqs : List Cq) (s : State) :
    (Selector.eraseAll cqs s).invoked = s.invoked := by
  induction cqs generalizing s with
  | nil => rfl
  | cons c rest ih => simp [Selector.eraseAll, ih]

theorem Selector.eraseAll_hw (cqs : List Cq) (s : State) :
    (Selector.eraseAll cqs s).hw = s.hw := by
  induction cqs generalizing s with
  | nil => rfl
  | cons c rest ih => simp [Selector.eraseAll, ih]

theorem Selector.eraseAll_done (cqs : List Cq) (s : State) :
    (Selector.eraseAll cqs s).done = s.done := by
  induction cqs generalizing s with
  | nil => rfl
  | cons c rest ih => simp [Selector.eraseAll, ih]

theorem Selector.eraseAll_callbacks (cqs : List Cq) (s : State) (h : Registry.WF s.callbacks_) :
    (Selector.eraseAll cqs s).callbacks_ = s.callbacks_.filter (fun e => decide (e.1 ∉ cqs)) := by
  induction cqs generalizing s with
  | nil => simp [Selector.eraseAll]
  | cons c rest ih =>
    simp only [Selector.eraseAll]
    rw [ih (s.erase c) (Registry.WF_erase h c), State.erase_callbacks,
      Registry.erase_eq_filter h, List.filter_filter]
    apply List.filter_congr
    intro x _
    by_cases hx : x.1 = c <;> simp [hx]

theorem Selector.sweep_invoked (poll : Cq → Int × ibv_wc) (s : State) :
    (Selector.sweep poll s).invoked =
      s.invoked ++ s.callbacks_.filterMap (fun e =>
        if (poll e.1).1 = 0 then none
        else if (poll e.1).1 = 1 then some (e.2, Future.value (poll e.1).2)
        else some (e.2, Future.exception Exception.channel_exception)) := by
  simp only [Selector.sweep, Selector.eraseAll_invoked, Selector.pollAll_invoked]

theorem Selector.sweep_hw (poll : Cq → Int × ibv_wc) (s : State) :
    (Selector.sweep poll s).hw = s.hw ++ s.callbacks_.map (fun e => HwCall.poll_cq e.1) := by
  simp only [Selector.sweep, Selector.eraseAll_hw, Selector.pollAll_hw]

theorem Selector.sweep_done (poll : Cq → Int × ibv_wc) (s : State) :
    (Selector.sweep poll s).done = s.done := by
  simp only [Selector.sweep, Selector.eraseAll_done, Selector.pollAll_done]

theorem Selector.sweep_callbacks (poll : Cq → Int × ibv_wc) (s : State)
    (h : Registry.WF s.callbacks_) :
    (Selector.sweep poll s).callbacks_ =
      s.callbacks_.filter (fun e => decide ((poll e.1).1 = 0)) := by
  simp only [Selector.sweep]
  rw [Selector.eraseAll_callbacks _ _ (by rw [Selector.pollAll_callbacks]; exact h),
    Selector.pollAll_callbacks, Selector.pollAll_finished]
  apply List.filter_congr
  intro x hx
  by_cases h0 : (poll x.1).1 = 0
  · simp only [h0, decide_True, decide_eq_true_eq, List.nil_append, List.mem_map,
      List.mem_filter, not_exists, not_and]
    intro y hy hyx
    rw [hyx] at hy
    simp [h0] at hy
  · simp only [h0, decide_False, decide_eq_false_iff_not, not_not, List.nil_append,
      List.mem_map, List.mem_filter]
    exact ⟨x, ⟨hx, by simpa using h0⟩, rfl⟩

theorem Selector.sweep_invoked_fst (poll : Cq → Int × ibv_wc) (s : State) :
    (Selector.sweep poll s).invoked.map Prod.fst =
      s.invoked.map Prod.fst ++
        (s.callbacks_.filter (fun e => !decide ((poll e.1).1 = 0))).map Prod.snd := by
  rw [Selector.sweep_invoked, List.map_append]
  congr 1
  generalize s.callbacks_ = r
  induction r with
  | nil => rfl
  | cons e rest ih =>
    by_cases h0 : (poll e.1).1 = 0
    · rw [List.filterMap_cons_none (by simp [h0]), List.filter_cons_of_neg (by simp [h0]), ih]
    · rw [List.filter_cons_of_pos (by simp [h0])]
      by_cases h1 : (poll e.1).1 = 1
      · rw [List.filterMap_cons_some (by simp [h1]; rfl)]; simp [ih]
      · rw [List.filterMap_cons_some (by simp [h0, h1]; rfl)]; simp [ih]

theorem Selector.failAll_callbacks (its : List (Cq × DoneCallBack)) (s : State) :
    (Selector.failAll its s).callbacks_ = s.callbacks_ := by
  induction its generalizing s with
  | nil => rfl
  | cons e rest ih => simp [Selector.failAll, ih]

theorem Selector.failAll_hw (its : List (Cq × DoneCallBack)) (s : State) :
    (Selector.failAll its s).hw = s.hw := by
  induction its generalizing s with
  | nil => rfl
  | cons e rest ih => simp [Selector.failAll, ih]

theorem Selector.failAll_invoked (its : List (Cq × DoneCallBack)) (s : State) :
    (Selector.failAll its s).invoked =
      s.invoked ++ its.map (fun e => (e.2, Future.exception Exception.channel_exception)) := by
  induction its generalizing s with
  | nil => simp [Selector.failAll]
  | cons e rest ih => simp [Selector.failAll, ih]

theorem Selector.shutdown_callbacks (s : State) : (Selector.shutdown s).callbacks_ = [] := rfl

theorem Selector.shutdown_invoked (s : State) :
    (Selector.shutdown s).invoked =
      s.invoked ++
        s.callbacks_.map (fun e => (e.2, Future.exception Exception.channel_exception)) := by
  simp [Selector.shutdown, Selector.failAll_invoked]

theorem Selector.shutdown_hw (s : State) : (Selector.shutdown s).hw = s.hw := by
  simp [Selector.shutdown, Selector.failAll_hw]

/-! ### The invariant along a trace -/

theorem Registry.erase_perm (cq : Cq) (r : List (Cq × DoneCallBack)) :
    (r.map Prod.snd).Perm
      ((Registry.erase cq r).map Prod.snd ++ (Registry.find cq r).toList) := by
  induction r with
  | nil => simp [Registry.erase, Registry.find]
  | cons e rest ih =>
    obtain ⟨k, v⟩ := e
    by_cases hk : cq = k
    · subst hk
      simpa [Registry.erase, Registry.find] using
        (List.perm_append_comm : ([v] ++ rest.map Prod.snd).Perm (rest.map Prod.snd ++ [v]))
    · simpa [Registry.erase, Registry.find, hk] using ih

theorem Selector.Inv_init : Selector.Inv Selector.init [] [] where
  wf := List.Pairwise.nil
  balance := by simp [Selector.init]

theorem Selector.Inv_register {s : State} {R G : List DoneCallBack} (h : Selector.Inv s R G)
    {cq : Cq} (hfree : Registry.find cq s.callbacks_ = none) (d : DoneCallBack) :
    Selector.Inv (Selector.register_callback cq d s) (R ++ [d]) G := by
  refine ⟨Registry.WF_assign h.wf cq d, ?_⟩
  have hperm : ((Registry.assign cq d s.callbacks_).map Prod.snd).Perm
      (d :: s.callbacks_.map Prod.snd) :=
    (Registry.assign_perm hfree d).map Prod.snd
  have h1 : ((Registry.assign cq d s.callbacks_).map Prod.snd ++
      (G ++ s.invoked.map Prod.fst)).Perm
      (d :: (s.callbacks_.map Prod.snd ++ (G ++ s.invoked.map Prod.fst))) :=
    hperm.append_right _
  exact h1.trans (((h.balance.cons d).trans (List.perm_append_singleton d R).symm))

theorem Selector.Inv_unregister {s : State} {R G : List DoneCallBack} (h : Selector.Inv s R G)
    (cq : Cq) :
    Selector.Inv (Selector.unregister cq s) R
      (G ++ (Registry.find cq s.callbacks_).toList) := by
  refine ⟨Registry.WF_erase h.wf cq, ?_⟩
  refine List.Perm.trans ?_ h.balance
  show ((Registry.erase cq s.callbacks_).map Prod.snd ++
    ((G ++ (Registry.find cq s.callbacks_).toList) ++ s.invoked.map Prod.fst)).Perm _
  have h1 := (Registry.erase_perm cq s.callbacks_).symm
  have h2 : ((Registry.erase cq s.callbacks_).map Prod.snd ++
      ((G ++ (Registry.find cq s.callbacks_).toList) ++ s.invoked.map Prod.fst)).Perm
      (((Registry.erase cq s.callbacks_).map Prod.snd ++ (Registry.find cq s.callbacks_).toList)
        ++ (G ++ s.invoked.map Prod.fst)) := by
    rw [List.append_assoc, List.append_assoc]
    refine List.Perm.append_left _ ?_
    rw [← List.append_assoc, ← List.append_assoc]
    exact List.Perm.append_right _ List.perm_append_comm
  exact h2.trans (h1.append_right _)

/-- A step that moves the entries rejected by `keep` from the registry to the invocation log
preserves the invariant. -/
theorem Selector.Inv_fire {s s1 : State} {R G : List DoneCallBack} (h : Selector.Inv s R G)
    (keep : Cq × DoneCallBack → Bool)
    (hcb : s1.callbacks_ = s.callbacks_.filter keep)
    (hlog : s1.invoked.map Prod.fst =
      s.invoked.map Prod.fst ++ (s.callbacks_.filter (fun e => !keep e)).map Prod.snd) :
    Selector.Inv s1 R G := by
  refine ⟨by rw [hcb]; exact List.Pairwise.filter _ h.wf, ?_⟩
  refine List.Perm.trans ?_ h.balance
  rw [hcb, hlog]
  have h1 : ((s.callbacks_.filter keep).map Prod.snd ++
      (s.callbacks_.filter (fun e => !keep e)).map Prod.snd).Perm (s.callbacks_.map Prod.snd) := by
    rw [← List.map_append]
    exact (List.filter_append_perm keep s.callbacks_).map Prod.snd
  have h2 : (G ++ (s.invoked.map Prod.fst ++
      (s.callbacks_.filter (fun e => !keep e)).map Prod.snd)).Perm
      ((s.callbacks_.filter (fun e => !keep e)).map Prod.snd ++ (G ++ s.invoked.map Prod.fst)) := by
    rw [← List.append_assoc]
    exact List.perm_append_comm
  refine (List.Perm.append_left _ h2).trans ?_
  rw [← List.append_assoc]
  exact h1.append_right _

theorem Selector.Inv_sweep {s : State} {R G : List DoneCallBack} (h : Selector.Inv s R G)
    (poll : Cq → Int × ibv_wc) : Selector.Inv (Selector.sweep poll s) R G :=
  Selector.Inv_fire h (fun e => decide ((poll e.1).1 = 0)) (Selector.sweep_callbacks poll s h.wf)
    (Selector.sweep_invoked_fst poll s)

theorem Selector.Inv_shutdown {s : State} {R G : List DoneCallBack} (h : Selector.Inv s R G) :
    Selector.Inv (Selector.shutdown s) R G := by
  refine Selector.Inv_fire h (fun _ => false) ?_ ?_
  · simp [Selector.shutdown_callbacks]
  · simp [Selector.shutdown_invoked]

theorem Selector.Inv_step {s : State} {R G : List DoneCallBack} (h : Selector.Inv s R G)
    (x : Step) (hx : x.Allowed s.callbacks_) :
    Selector.Inv (Selector.step s x) (R ++ x.registers) (G ++ x.removes s.callbacks_) := by
  cases x with
  | register_callback cq d =>
    simpa [Step.removes, Step.registers] using Selector.Inv_register h hx d
  | unregister cq =>
    simpa [Step.removes, Step.registers] using Selector.Inv_unregister h cq
  | sweep poll =>
    simp only [Step.removes, Step.registers, List.append_nil, Selector.step, Selector.iteration]
    split
    · exact h
    · exact Selector.Inv_sweep h poll
  | shutdown =>
    simpa [Step.removes, Step.registers] using Selector.Inv_shutdown h

theorem Selector.Inv_run (t : List Step) : ∀ (s : State) (R G : List DoneCallBack),
    Selector.Inv s R G → Selector.Disciplined s t →
    Selector.Inv (Selector.run s t) (R ++ Selector.registered t) (G ++ Selector.removed s t) := by
  induction t with
  | nil => intro s R G h _; simpa [Selector.run, Selector.registered, Selector.removed] using h
  | cons x rest ih =>
    intro s R G h hd
    simp only [Selector.registered, Selector.removed, Selector.run]
    rw [← List.append_assoc, ← List.append_assoc]
    exact ih _ _ _ (Selector.Inv_step h x hd.1) hd.2

/-- The invariant as a count: pending, removed and invoked occurrences of a callback add up to
its registrations. -/
theorem Selector.Inv_count {s : State} {R G : List DoneCallBack} (h : Selector.Inv s R G)
    (c : DoneCallBack) :
    (s.callbacks_.map Prod.snd).count c + (G.count c + s.calls c) = R.count c := by
  rw [← h.balance.count_eq c, List.count_append, List.count_append]
  rfl

/-! ## Promises -/

theorem PromiseState.resolve_ready (f g : Future) :
    ∃ e, (PromiseState.ready f).resolve g = Except.error e := by
  cases g with
  | value wc => exact ⟨_, rfl⟩
  | exception e => exact ⟨_, rfl⟩

theorem PromiseState.resolve_pending (g : Future) :
    PromiseState.pending.resolve g = Except.ok (PromiseState.ready g) := by
  cases g with
  | value wc => rfl
  | exception e => rfl

/-- A resolved promise is not changed by any call of any callback. -/
theorem DoneCallBack.call_keeps_ready (cb : DoneCallBack) (g : Future) {ps : List PromiseState}
    {h : Nat} {f : Future} (hr : ps[h]? = some (PromiseState.ready f)) :
    (cb.call g ps)[h]? = some (PromiseState.ready f) := by
  cases cb with
  | user id => exact hr
  | resolve p =>
    simp only [DoneCallBack.call]
    by_cases hp : p = h
    · subst hp
      rw [hr]
      obtain ⟨e, he⟩ := PromiseState.resolve_ready f g
      simp only [he]
      exact hr
    · cases hps : ps[p]? with
      | none => exact hr
      | some st =>
        simp only
        cases hres : st.resolve g with
        | error e => exact hr
        | ok st1 => simp only; rw [List.getElem?_set_ne hp]; exact hr

/-- A resolved promise is not changed by the destruction of any callback. -/
theorem DoneCallBack.destroy_keeps_ready (cb : DoneCallBack) {ps : List PromiseState}
    {h : Nat} {f : Future} (hr : ps[h]? = some (PromiseState.ready f)) :
    (cb.destroy ps)[h]? = some (PromiseState.ready f) := by
  cases cb with
  | user id => exact hr
  | resolve p =>
    simp only [DoneCallBack.destroy]
    by_cases hp : p = h
    · subst hp
      rw [hr]
      simp only [PromiseState.abandon]
      have hlt : p < ps.length := by
        by_contra hge
        rw [List.getElem?_eq_none (Nat.le_of_not_lt hge)] at hr
        cases hr
      exact List.getElem?_set_self hlt
    · cases hps : ps[p]? with
      | none => exact hr
      | some st => simp only; rw [List.getElem?_set_ne hp]; exact hr

/-- A promise is not touched by the call of a callback other than its own lambda. -/
theorem DoneCallBack.call_other (cb : DoneCallBack) (g : Future) (ps : List PromiseState)
    {h : Nat} (hne : cb ≠ DoneCallBack.resolve h) : (cb.call g ps)[h]? = ps[h]? := by
  cases cb with
  | user id => rfl
  | resolve p =>
    have hp : p ≠ h := fun hp => hne (by rw [hp])
    simp only [DoneCallBack.call]
    cases hps : ps[p]? with
    | none => rfl
    | some st =>
      simp only
      cases hres : st.resolve g with
      | error e => rfl
      | ok st1 => simp only; exact List.getElem?_set_ne hp

/-- The lambda resolves its pending promise with the future it is called with. -/
theorem DoneCallBack.call_resolves {ps : List PromiseState} {h : Nat} (g : Future)
    (hp : ps[h]? = some PromiseState.pending) :
    ((DoneCallBack.resolve h).call g ps)[h]? = some (PromiseState.ready g) := by
  have hlt : h < ps.length := by
    by_contra hge
    rw [List.getElem?_eq_none (Nat.le_of_not_lt hge)] at hp
    cases hp
  simp only [DoneCallBack.call, hp, PromiseState.resolve_pending]
  exact List.getElem?_set_self hlt

theorem State.erase_keeps_ready (cq : Cq) {s : State} {h : Nat} {f : Future}
    (hr : s.promises[h]? = some (PromiseState.ready f)) :
    (s.erase cq).promises[h]? = some (PromiseState.ready f) := by
  simp only [State.erase]
  cases Registry.find cq s.callbacks_ with
  | none => exact hr
  | some cb => exact DoneCallBack.destroy_keeps_ready cb hr

theorem Selector.eraseAll_keeps_ready (cqs : List Cq) : ∀ {s : State} {h : Nat} {f : Future},
    s.promises[h]? = some (PromiseState.ready f) →
    (Selector.eraseAll cqs s).promises[h]? = some (PromiseState.ready f) := by
  induction cqs with
  | nil => intro s h f hr; exact hr
  | cons c rest ih => intro s h f hr; exact ih (State.erase_keeps_ready c hr)

theorem Selector.pollAll_keeps_ready (poll : Cq → Int × ibv_wc)
    (its : List (Cq × DoneCallBack)) : ∀ {s : State} (fin : List Cq) {h : Nat} {f : Future},
    s.promises[h]? = some (PromiseState.ready f) →
    (Selector.pollAll poll its s fin).1.promises[h]? = some (PromiseState.ready f) := by
  induction its with
  | nil => intro s fin h f hr; exact hr
  | cons e rest ih =>
    intro s fin h f hr
    simp only [Selector.pollAll]
    split
    · exact ih _ hr
    · split
      · exact ih _ (DoneCallBack.call_keeps_ready e.2 _ hr)
      · exact ih _ (DoneCallBack.call_keeps_ready e.2 _ hr)

theorem Selector.failAll_keeps_ready (its : List (Cq × DoneCallBack)) :
    ∀ {s : State} {h : Nat} {f : Future},
    s.promises[h]? = some (PromiseState.ready f) →
    (Selector.failAll its s).promises[h]? = some (PromiseState.ready f) := by
  induction its with
  | nil => intro s h f hr; exact hr
  | cons e rest ih =>
    intro s h f hr
    exact ih (DoneCallBack.call_keeps_ready e.2 _ hr)

theorem Selector.destroyAll_keeps_ready (its : List (Cq × DoneCallBack)) :
    ∀ {ps : List PromiseState} {h : Nat} {f : Future},
    ps[h]? = some (PromiseState.ready f) →
    (Selector.destroyAll its ps)[h]? = some (PromiseState.ready f) := by
  induction its with
  | nil => intro ps h f hr; exact hr
  | cons e rest ih =>
    intro ps h f hr
    exact ih (DoneCallBack.destroy_keeps_ready e.2 hr)

/-- A resolved handle never changes again: no Selector step touches a promise that is ready. -/
theorem Selector.step_keeps_ready (x : Step) {s : State} {h : Nat} {f : Future}
    (hr : s.promises[h]? = some (PromiseState.ready f)) :
    (Selector.step s x).promises[h]? = some (PromiseState.ready f) := by
  cases x with
  | register_callback cq d =>
    simp only [Selector.step, Selector.register_callback]
    cases Registry.find cq s.callbacks_ with
    | none => exact hr
    | some cb => exact DoneCallBack.destroy_keeps_ready cb hr
  | unregister cq => exact State.erase_keeps_ready cq hr
  | sweep poll =>
    simp only [Selector.step, Selector.iteration]
    split
    · exact hr
    · exact Selector.eraseAll_keeps_ready _ (Selector.pollAll_keeps_ready poll _ _ hr)
  | shutdown =>
    simp only [Selector.step, Selector.shutdown]
    exact Selector.destroyAll_keeps_ready _ (Selector.failAll_keeps_ready _ hr)

/-- The first loop of a sweep resolves a pending promise whose lambda is registered on queue `q`
alone with the outcome of the poll of `q`: the completion when the poll returns 1, the failure
`channel_exception` when it returns anything but 0 and 1. -/
theorem Selector.pollAll_resolves (poll : Cq → Int × ibv_wc) (q : Cq) (h : Nat)
    (its : List (Cq × DoneCallBack)) : ∀ (s : State) (fin : List Cq),
    (q, DoneCallBack.resolve h) ∈ its →
    (∀ e ∈ its, e.2 = DoneCallBack.resolve h → e.1 = q) →
    s.promises[h]? = some PromiseState.pending → (poll q).1 ≠ 0 →
    (Selector.pollAll poll its s fin).1.promises[h]? =
      some (PromiseState.ready
        (if (poll q).1 = 1 then Future.value (poll q).2
         else Future.exception Exception.channel_exception)) := by
  induction its with
  | nil => intro s fin hm; cases hm
  | cons e rest ih =>
    intro s fin hm hq hp h0
    by_cases he : e.2 = DoneCallBack.resolve h
    · have hk : e.1 = q := hq e (List.mem_cons_self _ _) he
      simp only [Selector.pollAll, hk, he, if_neg h0]
      by_cases h1 : (poll q).1 = 1
      · simp only [if_pos h1]
        exact Selector.pollAll_keeps_ready poll rest _ (DoneCallBack.call_resolves _ hp)
      · simp only [if_neg h1]
        exact Selector.pollAll_keeps_ready poll rest _ (DoneCallBack.call_resolves _ hp)
    · have hm2 : (q, DoneCallBack.resolve h) ∈ rest := by
        rcases List.mem_cons.mp hm with hm | hm
        · exact absurd (by rw [← hm]) he
        · exact hm
      have hq2 : ∀ e ∈ rest, e.2 = DoneCallBack.resolve h → e.1 = q :=
        fun x hx => hq x (List.mem_cons_of_mem _ hx)
      simp only [Selector.pollAll]
      split
      · exact ih _ _ hm2 hq2 hp h0
      · split
        · refine ih _ _ hm2 hq2 ?_ h0
          show (e.2.call _ s.promises)[h]? = _
          rw [DoneCallBack.call_other e.2 _ _ he]; exact hp
        · refine ih _ _ hm2 hq2 ?_ h0
          show (e.2.call _ s.promises)[h]? = _
          rw [DoneCallBack.call_other e.2 _ _ he]; exact hp

/-- A sweep resolves a pending promise whose lambda is registered on queue `q` alone with the
outcome of the poll of `q`. -/
theorem Selector.sweep_resolves (poll : Cq → Int × ibv_wc) (s : State) (q : Cq) (h : Nat)
    (hreg : (q, DoneCallBack.resolve h) ∈ s.callbacks_)
    (hown : ∀ e ∈ s.callbacks_, e.2 = DoneCallBack.resolve h → e.1 = q)
    (hp : s.promises[h]? = some PromiseState.pending) (h0 : (poll q).1 ≠ 0) :
    (Selector.sweep poll s).promises[h]? =
      some (PromiseState.ready
        (if (poll q).1 = 1 then Future.value (poll q).2
         else Future.exception Exception.channel_exception)) :=
  Selector.eraseAll_keeps_ready _ (Selector.pollAll_resolves poll q h _ s [] hreg hown hp h0)

theorem Selector.failAll_resolves (h : Nat) (its : List (Cq × DoneCallBack)) :
    ∀ (s : State), (∃ q, (q, DoneCallBack.resolve h) ∈ its) →
    s.promises[h]? = some PromiseState.pending →
    (Selector.failAll its s).promises[h]? =
      some (PromiseState.ready (Future.exception Exception.channel_exception)) := by
  induction its with
  | nil => intro s hm; obtain ⟨q, hq⟩ := hm; cases hq
  | cons e rest ih =>
    intro s hm hp
    simp only [Selector.failAll]
    by_cases he : e.2 = DoneCallBack.resolve h
    · refine Selector.failAll_keeps_ready rest ?_
      show (e.2.call _ s.promises)[h]? = _
      rw [he]; exact DoneCallBack.call_resolves _ hp
    · refine ih _ ?_ ?_
      · obtain ⟨q, hq⟩ := hm
        rcases List.mem_cons.mp hq with hq | hq
        · exact absurd (by rw [← hq]) he
        · exact ⟨q, hq⟩
      · show (e.2.call _ s.promises)[h]? = _
        rw [DoneCallBack.call_other e.2 _ _ he]; exact hp

/-- The destructor resolves every pending promise whose lambda is registered with the failure
`channel_exception`. -/
theorem Selector.shutdown_resolves (s : State) (q : Cq) (h : Nat)
    (hreg : (q, DoneCallBack.resolve h) ∈ s.callbacks_)
    (hp : s.promises[h]? = some PromiseState.pending) :
    (Selector.shutdown s).promises[h]? =
      some (PromiseState.ready (Future.exception Exception.channel_exception)) := by
  simp only [Selector.shutdown]
  exact Selector.destroyAll_keeps_ready _ (Selector.failAll_resolves h _ _ ⟨q, hreg⟩ hp)

theorem Registry.mem_of_find {r : List (Cq × DoneCallBack)} {q : Cq} {c : DoneCallBack}
    (h : Registry.find q r = some c) : (q, c) ∈ r := by
  induction r with
  | nil => simp [Registry.find] at h
  | cons e rest ih =>
    obtain ⟨k, v⟩ := e
    by_cases hk : q = k
    · subst hk
      simp [Registry.find] at h
      simp [h]
    · simp [Registry.find, hk] at h
      exact List.mem_cons_of_mem _ (ih h)

theorem Registry.mem_assign_self (cq : Cq) (cb : DoneCallBack) (r : List (Cq × DoneCallBack)) :
    (cq, cb) ∈ Registry.assign cq cb r :=
  Registry.mem_of_find (by rw [Registry.find_assign]; simp)

theorem Registry.mem_assign {cq : Cq} {cb : DoneCallBack} {r : List (Cq × DoneCallBack)}
    {e : Cq × DoneCallBack} (h : e ∈ Registry.assign cq cb r) : e = (cq, cb) ∨ e ∈ r := by
  induction r with
  | nil => simpa [Registry.assign] using h
  | cons x rest ih =>
    obtain ⟨k, v⟩ := x
    by_cases h1 : cq < k
    · simpa [Registry.assign, h1] using h
    · by_cases h2 : cq = k
      · subst h2
        simp only [Registry.assign, h1, if_false, if_true, List.mem_cons] at h
        rcases h with h | h
        · exact Or.inl h
        · exact Or.inr (List.mem_cons_of_mem _ h)
      · simp only [Registry.assign, h1, h2, if_false, List.mem_cons] at h
        rcases h with h | h
        · exact Or.inr (by rw [h]; exact List.mem_cons_self _ _)
        · rcases ih h with h | h
          · exact Or.inl h
          · exact Or.inr (List.mem_cons_of_mem _ h)

/-- A promise is not touched by the destruction of a callback other than its own lambda. -/
theorem DoneCallBack.destroy_other (cb : DoneCallBack) (ps : List PromiseState)
    {h : Nat} (hne : cb ≠ DoneCallBack.resolve h) : (cb.destroy ps)[h]? = ps[h]? := by
  cases cb with
  | user id => rfl
  | resolve p =>
    have hp : p ≠ h := fun hp => hne (by rw [hp])
    simp only [DoneCallBack.destroy]
    cases hps : ps[p]? with
    | none => rfl
    | some st => simp only; exact List.getElem?_set_ne hp

/-- Registering the lambda of a new pending promise `h` on queue `cq`, when no registered
callback refers to `h` yet: the lambda is registered on `cq` alone and the promise is pending. -/
theorem Selector.register_lambda {s : State} (cq : Cq) {h : Nat}
    (hfresh : ∀ e ∈ s.callbacks_, e.2 ≠ DoneCallBack.resolve h)
    (hp : s.promises[h]? = some PromiseState.pending) :
    (cq, DoneCallBack.resolve h) ∈
      (Selector.register_callback cq (DoneCallBack.resolve h) s).callbacks_ ∧
    (∀ e ∈ (Selector.register_callback cq (DoneCallBack.resolve h) s).callbacks_,
      e.2 = DoneCallBack.resolve h → e.1 = cq) ∧
    (Selector.register_callback cq (DoneCallBack.resolve h) s).promises[h]? =
      some PromiseState.pending := by
  refine ⟨Registry.mem_assign_self _ _ _, ?_, ?_⟩
  · intro e he hc
    rcases Registry.mem_assign he with h1 | h1
    · rw [h1]
    · exact absurd hc (hfresh e h1)
  · simp only [Selector.register_callback]
    cases hf : Registry.find cq s.callbacks_ with
    | none => exact hp
    | some old =>
      simp only
      rw [DoneCallBack.destroy_other old _ (hfresh _ (Registry.mem_of_find hf))]
      exact hp

/-- The future variants on a rejected post, in any state: the returned handle is the new
promise, its lambda is never invoked and never registered, and the handle holds
`broken_promise`. -/
theorem Channel.rejected_post_future (ch : Channel) (buffer : Buffer) (length : Nat)
    (offset : Int) (post_ret : Int) (s : State) (hpost : post_ret ≠ 0) :
    (Channel.recv_future ch buffer offset post_ret s).1 = s.promises.length ∧
    (Channel.recv_future ch buffer offset post_ret s).2.promises =
      s.promises ++ [PromiseState.ready (Future.exception Exception.broken_promise)] ∧
    (Channel.recv_future ch buffer offset post_ret s).2.invoked = s.invoked ∧
    (Channel.recv_future ch buffer offset post_ret s).2.callbacks_ = s.callbacks_ ∧
    (Channel.send_future ch buffer length offset post_ret s).1 = s.promises.length ∧
    (Channel.send_future ch buffer length offset post_ret s).2.promises =
      s.promises ++ [PromiseState.ready (Future.exception Exception.broken_promise)] ∧
    (Channel.send_future ch buffer length offset post_ret s).2.invoked = s.invoked ∧
    (Channel.send_future ch buffer length offset post_ret s).2.callbacks_ = s.callbacks_ := by
  have hd : (DoneCallBack.resolve s.promises.length).destroy
      (s.promises ++ [PromiseState.pending]) =
      s.promises ++ [PromiseState.ready (Future.exception Exception.broken_promise)] := by
    simp [DoneCallBack.destroy, PromiseState.abandon]
  refine ⟨rfl, ?_, ?_, ?_, rfl, ?_, ?_, ?_⟩ <;>
    simp [Channel.recv_future, Channel.recv, Channel.send_future, Channel.send, hpost,
      State.hwcall, hd]

/-- The future variants on an accepted post, in any state in which no registered callback
refers to the promise about to be created: the handle resolves with what the Selector delivers
on the queue of the operation.  A sweep whose poll of that queue returns 1 resolves the handle
with the polled completion; a sweep whose poll returns a value other than 0 and 1 resolves it
with `channel_exception`; and so does the destructor. -/
theorem Channel.accepted_post_future (ch : Channel) (buffer : Buffer) (length : Nat)
    (offset : Int) (s : State) (poll : Cq → Int × ibv_wc)
    (hfresh : ∀ e ∈ s.callbacks_, e.2 ≠ DoneCallBack.resolve s.promises.length) :
    ((poll ch.recv_cq).1 = 1 →
      (Selector.sweep poll (Channel.recv_future ch buffer offset 0 s).2).promises[
        (Channel.recv_future ch buffer offset 0 s).1]? =
        some (PromiseState.ready (Future.value (poll ch.recv_cq).2))) ∧
    ((poll ch.recv_cq).1 ≠ 0 → (poll ch.recv_cq).1 ≠ 1 →
      (Selector.sweep poll (Channel.recv_future ch buffer offset 0 s).2).promises[
        (Channel.recv_future ch buffer offset 0 s).1]? =
        some (PromiseState.ready (Future.exception Exception.channel_exception))) ∧
    (Selector.shutdown (Channel.recv_future ch buffer offset 0 s).2).promises[
        (Channel.recv_future ch buffer offset 0 s).1]? =
      some (PromiseState.ready (Future.exception Exception.channel_exception)) ∧
    ((poll ch.send_cq).1 = 1 →
      (Selector.sweep poll (Channel.send_future ch buffer length offset 0 s).2).promises[
        (Channel.send_future ch buffer length offset 0 s).1]? =
        some (PromiseState.ready (Future.value (poll ch.send_cq).2))) ∧
    ((poll ch.send_cq).1 ≠ 0 → (poll ch.send_cq).1 ≠ 1 →
      (Selector.sweep poll (Channel.send_future ch buffer length offset 0 s).2).promises[
        (Channel.send_future ch buffer length offset 0 s).1]? =
        some (PromiseState.ready (Future.exception Exception.channel_exception))) ∧
    (Selector.shutdown (Channel.send_future ch buffer length offset 0 s).2).promises[
        (Channel.send_future ch buffer length offset 0 s).1]? =
      some (PromiseState.ready (Future.exception Exception.channel_exception)) := by
  have key : ∀ (cq : Cq) (c : HwCall),
      let s1 := Selector.register_callback cq (DoneCallBack.resolve s.promises.length)
        ({ s with promises := s.promises ++ [PromiseState.pending] }.hwcall c)
      (cq, DoneCallBack.resolve s.promises.length) ∈ s1.callbacks_ ∧
      (∀ e ∈ s1.callbacks_, e.2 = DoneCallBack.resolve s.promises.length → e.1 = cq) ∧
      s1.promises[s.promises.length]? = some PromiseState.pending := by
    intro cq c
    exact Selector.register_lambda cq hfresh (List.getElem?_concat_length _ _)
  have hr : Channel.recv_future ch buffer offset 0 s =
      (s.promises.length, Selector.register_callback ch.recv_cq
        (DoneCallBack.resolve s.promises.length)
        ({ s with promises := s.promises ++ [PromiseState.pending] }.hwcall
          (HwCall.post_recv (Channel.recv_request buffer offset).1
            (Channel.recv_request buffer offset).2))) := by
    simp [Channel.recv_future, Channel.recv]
  have hs : Channel.send_future ch buffer length offset 0 s =
      (s.promises.length, Selector.register_callback ch.send_cq
        (DoneCallBack.resolve s.promises.length)
        ({ s with promises := s.promises ++ [PromiseState.pending] }.hwcall
          (HwCall.post_send (Channel.send_request buffer length offset).1
            (Channel.send_request buffer length offset).2))) := by
    simp [Channel.send_future, Channel.send]
  rw [hr, hs]
  obtain ⟨r1, r2, r3⟩ := key ch.recv_cq
    (HwCall.post_recv (Channel.recv_request buffer offset).1
      (Channel.recv_request buffer offset).2)
  obtain ⟨s1, s2, s3⟩ := key ch.send_cq
    (HwCall.post_send (Channel.send_request buffer length offset).1
      (Channel.send_request buffer length offset).2)
  refine ⟨fun h1 => ?_, fun h0 h1 => ?_, Selector.shutdown_resolves _ _ _ r1 r3,
    fun h1 => ?_, fun h0 h1 => ?_, Selector.shutdown_resolves _ _ _ s1 s3⟩
  · have := Selector.sweep_resolves poll _ _ _ r1 r2 r3 (by rw [h1]; decide)
    rw [if_pos h1] at this; exact this
  · have := Selector.sweep_resolves poll _ _ _ r1 r2 r3 h0
    rw [if_neg h1] at this; exact this
  · have := Selector.sweep_resolves poll _ _ _ s1 s2 s3 (by rw [h1]; decide)
    rw [if_pos h1] at this; exact this
  · have := Selector.sweep_resolves poll _ _ _ s1 s2 s3 h0
    rw [if_neg h1] at this; exact this

/-! ## The claims -/

theorem Selector.run_append (p q : List Step) : ∀ s : State,
    Selector.run s (p ++ q) = Selector.run (Selector.run s p) q := by
  induction p with
  | nil => intro s; rfl
  | cons x rest ih => intro s; simp [Selector.run, ih]

theorem Selector.registered_append (p q : List Step) :
    Selector.registered (p ++ q) = Selector.registered p ++ Selector.registered q := by
  induction p with
  | nil => rfl
  | cons x rest ih => simp [Selector.registered, ih]

theorem Selector.removed_append (p q : List Step) : ∀ s : State,
    Selector.removed s (p ++ q) =
      Selector.removed s p ++ Selector.removed (Selector.run s p) q := by
  induction p with
  | nil => intro s; rfl
  | cons x rest ih => intro s; simp [Selector.removed, Selector.run, ih]

theorem Selector.Disciplined_append (p q : List Step) : ∀ s : State,
    Selector.Disciplined s (p ++ q) ↔
      Selector.Disciplined s p ∧ Selector.Disciplined (Selector.run s p) q := by
  induction p with
  | nil => intro s; simp [Selector.Disciplined, Selector.run]
  | cons x rest ih => intro s; simp [Selector.Disciplined, Selector.run, ih, and_assoc]

/-- C1. Start from a fresh Selector and run any finite trace `t` of `register_callback`,
`unregister`, poll-loop turns (each against its own arbitrary poll results) and destructor steps,
in which `register_callback` is never applied to a queue that is registered at that moment, and
end it with the destructor.  Then every callback has been invoked exactly as often as it was
registered and not removed by `unregister`, and after every initial part of the trace it has
been invoked at most that often.  When the registrations are told apart by their callbacks
(each registration brings its own) this reads: every registered callback that `unregister` did
not remove has been invoked exactly once over the whole trace, and after every initial part of
the trace no callback has been invoked more than once. -/
theorem Selector.callback_invoked_exactly_once (t : List Step)
    (hd : Selector.Disciplined Selector.init t) :
    (∀ c, (Selector.run Selector.init (t ++ [Step.shutdown])).calls c +
        (Selector.removed Selector.init t).count c = (Selector.registered t).count c) ∧
    (∀ p, p <+: t ++ [Step.shutdown] → ∀ c,
      (Selector.run Selector.init p).calls c + (Selector.removed Selector.init p).count c ≤
        (Selector.registered p).count c) ∧
    ((Selector.registered t).Nodup →
      (∀ c ∈ Selector.registered t, c ∉ Selector.removed Selector.init t →
        (Selector.run Selector.init (t ++ [Step.shutdown])).calls c = 1) ∧
      (∀ p, p <+: t ++ [Step.shutdown] →
        ∀ c, (Selector.run Selector.init p).calls c ≤ 1)) := by
  have hfull : Selector.Disciplined Selector.init (t ++ [Step.shutdown]) :=
    (Selector.Disciplined_append t _ _).mpr ⟨hd, ⟨trivial, trivial⟩⟩
  have hreg : Selector.registered (t ++ [Step.shutdown]) = Selector.registered t := by
    simp [Selector.registered_append, Selector.registered, Step.registers]
  have hrem : Selector.removed Selector.init (t ++ [Step.shutdown]) =
      Selector.removed Selector.init t := by
    simp [Selector.removed_append, Selector.removed, Step.removes]
  have hend : ∀ c, (Selector.run Selector.init (t ++ [Step.shutdown])).calls c +
      (Selector.removed Selector.init t).count c = (Selector.registered t).count c := by
    intro c
    have hinv := Selector.Inv_run (t ++ [Step.shutdown]) Selector.init [] [] Selector.Inv_init
      hfull
    have hcb : (Selector.run Selector.init (t ++ [Step.shutdown])).callbacks_ = [] := by
      rw [Selector.run_append]; rfl
    have hc := Selector.Inv_count hinv c
    rw [hreg, hrem, hcb] at hc
    simp only [List.nil_append, List.map_nil, List.count_nil, Nat.zero_add] at hc
    omega
  have hpre : ∀ p, p <+: t ++ [Step.shutdown] → ∀ c,
      (Selector.run Selector.init p).calls c + (Selector.removed Selector.init p).count c ≤
        (Selector.registered p).count c := by
    intro p hp c
    obtain ⟨q, hq⟩ := hp
    have hdp : Selector.Disciplined Selector.init p := by
      rw [← hq] at hfull
      exact ((Selector.Disciplined_append p q _).mp hfull).1
    have hc := Selector.Inv_count
      (Selector.Inv_run p Selector.init [] [] Selector.Inv_init hdp) c
    simp only [List.nil_append] at hc
    omega
  refine ⟨hend, hpre, fun hn => ⟨?_, ?_⟩⟩
  · intro c hc hnot
    have h1 := hend c
    rw [List.count_eq_zero_of_not_mem hnot, List.count_eq_one_of_mem hn hc] at h1
    exact h1
  · intro p hp c
    obtain ⟨q, hq⟩ := hp
    have h1 := hpre p ⟨q, hq⟩ c
    have hnp : (Selector.registered p).Nodup := by
      have h2 : (Selector.registered (p ++ q)).Nodup := by rw [hq, hreg]; exact hn
      rw [Selector.registered_append] at h2
      exact h2.of_append_left
    have h3 := List.nodup_iff_count_le_one.mp hnp c
    omega

/-- Witness of C1 (scenario 1 of the specification, followed by the destructor): the trace is
disciplined, its registrations are distinct, and callback 1 is invoked exactly once. -/
theorem Selector.callback_invoked_exactly_once_witness :
    Selector.Disciplined Selector.init scenario1 ∧ (Selector.registered scenario1).Nodup ∧
    (Selector.run Selector.init (scenario1 ++ [Step.shutdown])).calls (DoneCallBack.user 1) = 1 :=
  ⟨by decide, by decide,
    ((Selector.callback_invoked_exactly_once scenario1 (by decide)).2.2 (by decide)).1
      (DoneCallBack.user 1) (by decide) (by decide)⟩

/-- Scenario 1 of the specification evaluated: nothing is invoked during the first three sweeps,
and the fourth sweep invokes the callback once, with the completion as value. -/
theorem Selector.scenario1_evaluated :
    (Selector.run Selector.init (scenario1.take 4)).invoked = [] ∧
    (Selector.run Selector.init scenario1).invoked =
      [(DoneCallBack.user 1, Future.value wcOk)] ∧
    (Selector.run Selector.init scenario1).callbacks_ = [] := by
  decide

/-- C2. One sweep of the poll loop over a well-formed registry, against arbitrary poll results:
every registered queue is polled once, in registry order; the callbacks invoked are, in registry
order, exactly those whose poll did not return 0, with the polled completion as value when the
poll returned 1 and with a failure otherwise; and the registry afterwards consists of exactly the
entries whose poll returned 0, unchanged.  What happens to an entry depends on the poll result
of its own queue only. -/
theorem Selector.sweep_effect (poll : Cq → Int × ibv_wc) (s : State)
    (h : Registry.WF s.callbacks_) :
    (Selector.sweep poll s).hw = s.hw ++ s.callbacks_.map (fun e => HwCall.poll_cq e.1) ∧
    (Selector.sweep poll s).invoked =
      s.invoked ++ s.callbacks_.filterMap (fun e =>
        if (poll e.1).1 = 0 then none
        else if (poll e.1).1 = 1 then some (e.2, Future.value (poll e.1).2)
        else some (e.2, Future.exception Exception.channel_exception)) ∧
    (Selector.sweep poll s).callbacks_ =
      s.callbacks_.filter (fun e => decide ((poll e.1).1 = 0)) :=
  ⟨Selector.sweep_hw poll s, Selector.sweep_invoked poll s, Selector.sweep_callbacks poll s h⟩

/-- Witness of C2 (scenario 4 of the specification): with no completion on queue 1 and one
completion on queue 2, callback 2 is invoked once with the completion and the entry of queue 1
stays registered. -/
theorem Selector.sweep_effect_witness :
    Registry.WF scenario4.callbacks_ ∧
    (Selector.sweep (pollOne 2 wcOk) scenario4).hw = [HwCall.poll_cq 1, HwCall.poll_cq 2] ∧
    (Selector.sweep (pollOne 2 wcOk) scenario4).invoked =
      [(DoneCallBack.user 2, Future.value wcOk)] ∧
    (Selector.sweep (pollOne 2 wcOk) scenario4).callbacks_ = [(1, DoneCallBack.user 1)] :=
  ⟨by decide, Selector.sweep_effect (pollOne 2 wcOk) scenario4 (by decide)⟩

/-- C5. The destructor of a Selector holding any number N of registrations invokes the
callback of every registration once, in registry order, each with the failure
`channel_exception` and none with a value; these are N invocations; and the registry is empty
afterwards. -/
theorem Selector.shutdown_effect (s : State) :
    (Selector.shutdown s).invoked =
      s.invoked ++
        s.callbacks_.map (fun e => (e.2, Future.exception Exception.channel_exception)) ∧
    (Selector.shutdown s).invoked.length = s.invoked.length + s.callbacks_.length ∧
    (Selector.shutdown s).callbacks_ = [] := by
  refine ⟨Selector.shutdown_invoked s, ?_, rfl⟩
  rw [Selector.shutdown_invoked]
  simp

/-- C6. The synchronous calls `recv_sync` and `send_sync` leave the registry (and the invocation
log) as they found it whatever the verbs report, and when the post is rejected they fail with
`channel_exception` after the post alone: no completion wait is made. -/
theorem Channel.sync_effect (ch : Channel) (buffer : Buffer) (length : Nat) (offset : Int)
    (post_ret : Int) (comp : Int × ibv_wc) (s : State) :
    (Channel.recv_sync ch buffer offset post_ret comp s).2.callbacks_ = s.callbacks_ ∧
    (Channel.send_sync ch buffer length offset post_ret comp s).2.callbacks_ = s.callbacks_ ∧
    (Channel.recv_sync ch buffer offset post_ret comp s).2.invoked = s.invoked ∧
    (Channel.send_sync ch buffer length offset post_ret comp s).2.invoked = s.invoked ∧
    (post_ret ≠ 0 →
      (Channel.recv_sync ch buffer offset post_ret comp s).1 =
        Except.error Exception.channel_exception ∧
      (Channel.recv_sync ch buffer offset post_ret comp s).2.hw =
        s.hw ++ [HwCall.post_recv ((buffer.addr : Int) + offset) buffer.length] ∧
      (Channel.send_sync ch buffer length offset post_ret comp s).1 =
        Except.error Exception.channel_exception ∧
      (Channel.send_sync ch buffer length offset post_ret comp s).2.hw =
        s.hw ++ [HwCall.post_send ((buffer.addr : Int) + offset) length]) := by
  refine ⟨?_, ?_, ?_, ?_, ?_⟩
  · unfold Channel.recv_sync; dsimp only; split
    · rfl
    · split <;> rfl
  · unfold Channel.send_sync; dsimp only; split
    · rfl
    · split <;> rfl
  · unfold Channel.recv_sync; dsimp only; split
    · rfl
    · split <;> rfl
  · unfold Channel.send_sync; dsimp only; split
    · rfl
    · split <;> rfl
  · intro hp
    simp [Channel.recv_sync, Channel.send_sync, Channel.recv_request, Channel.send_request, hp]

/-- Witness of C6 (scenario 3 of the specification): a rejected post on a Selector with two
registrations. -/
theorem Channel.sync_effect_witness :
    (Channel.recv_sync channel12 buffer8 0 (-1) (1, wcOk) scenario4).2.callbacks_ =
      scenario4.callbacks_ ∧
    (Channel.recv_sync channel12 buffer8 0 (-1) (1, wcOk) scenario4).1 =
      Except.error Exception.channel_exception ∧
    (Channel.recv_sync channel12 buffer8 0 (-1) (1, wcOk) scenario4).2.hw =
      scenario4.hw ++ [HwCall.post_recv 1000 8] :=
  have h := Channel.sync_effect channel12 buffer8 8 0 (-1) (1, wcOk) scenario4
  ⟨h.1, (h.2.2.2.2 (by decide)).1, (h.2.2.2.2 (by decide)).2.1⟩

theorem State.erase_absent {s : State} {cq : Cq}
    (h : Registry.find cq s.callbacks_ = none) : s.erase cq = s := by
  cases s
  simp only [State.erase] at h ⊢
  simp [h, Registry.erase_of_find_none h]

/-- C7. On a well-formed registry `unregister q` invokes no callback, removes the entry of `q`
and leaves the entry of every other queue as it was; when `q` has no registration the Selector
is unchanged; and a second `unregister q` changes nothing more. -/
theorem Selector.unregister_effect (s : State) (q : Cq) (h : Registry.WF s.callbacks_) :
    (Selector.unregister q s).invoked = s.invoked ∧
    Registry.find q (Selector.unregister q s).callbacks_ = none ∧
    (∀ q2, q2 ≠ q →
      Registry.find q2 (Selector.unregister q s).callbacks_ = Registry.find q2 s.callbacks_) ∧
    (Selector.unregister q s).callbacks_ = s.callbacks_.filter (fun e => decide (e.1 ≠ q)) ∧
    (Registry.find q s.callbacks_ = none → Selector.unregister q s = s) ∧
    Selector.unregister q (Selector.unregister q s) = Selector.unregister q s :=
  ⟨rfl, Registry.find_erase_self h q, fun _ hne => Registry.find_erase_of_ne hne,
    Registry.erase_eq_filter h q, fun hn => State.erase_absent hn,
    State.erase_absent (Registry.find_erase_self h q)⟩

/-- Witness of C7: unregistering queue 1, and the unregistered queue 5, in scenario 4. -/
theorem Selector.unregister_effect_witness :
    Registry.WF scenario4.callbacks_ ∧
    (Selector.unregister 1 scenario4).invoked = scenario4.invoked ∧
    (Selector.unregister 1 scenario4).callbacks_ = [(2, DoneCallBack.user 2)] ∧
    Selector.unregister 5 scenario4 = scenario4 ∧
    Selector.unregister 1 (Selector.unregister 1 scenario4) = Selector.unregister 1 scenario4 :=
  have h1 := Selector.unregister_effect scenario4 1 (by decide)
  have h5 := Selector.unregister_effect scenario4 5 (by decide)
  ⟨by decide, h1.1, h1.2.2.2.1, h5.2.2.2.2.1 (by decide), h1.2.2.2.2.2⟩

/-- C3, at a rejected post (`rdma_post_recv` / `rdma_post_send` return -1) with callback 1 on a
fresh Selector: neither callback variant invokes `done`; the invocation log stays empty, the
registry stays empty, and only the post has been issued. -/
theorem Channel.rejected_post_drops_callback :
    (Channel.recv channel12 buffer8 0 (DoneCallBack.user 1) (-1) Selector.init).invoked = [] ∧
    (Channel.send channel12 buffer8 8 0 (DoneCallBack.user 1) (-1) Selector.init).invoked = [] ∧
    (Channel.recv channel12 buffer8 0 (DoneCallBack.user 1) (-1) Selector.init).calls
      (DoneCallBack.user 1) = 0 ∧
    (Channel.send channel12 buffer8 8 0 (DoneCallBack.user 1) (-1) Selector.init).calls
      (DoneCallBack.user 1) = 0 ∧
    (Channel.recv channel12 buffer8 0 (DoneCallBack.user 1) (-1) Selector.init).callbacks_ = [] ∧
    (Channel.send channel12 buffer8 8 0 (DoneCallBack.user 1) (-1) Selector.init).callbacks_ =
      [] := by
  decide

/-- The callback variants never invoke `done` themselves, whatever the post returns. -/
theorem Channel.callback_variants_invoke_nothing (ch : Channel) (buffer : Buffer) (length : Nat)
    (offset : Int) (done : DoneCallBack) (post_ret : Int) (s : State) :
    (Channel.recv ch buffer offset done post_ret s).invoked = s.invoked ∧
    (Channel.send ch buffer length offset done post_ret s).invoked = s.invoked := by
  constructor
  · unfold Channel.recv; dsimp only; split <;> rfl
  · unfold Channel.send; dsimp only; split <;> rfl

/-- When the post is accepted the callback variants register `done` on the queue of the
operation: `recv_cq` for `recv`, `send_cq` for `send`. -/
theorem Channel.accepted_post_registers (ch : Channel) (buffer : Buffer) (length : Nat)
    (offset : Int) (done : DoneCallBack) (s : State) :
    Registry.find ch.recv_cq (Channel.recv ch buffer offset done 0 s).callbacks_ = some done ∧
    Registry.find ch.send_cq (Channel.send ch buffer length offset done 0 s).callbacks_ =
      some done := by
  constructor
  · simp [Channel.recv, Selector.register_callback, Registry.find_assign]
  · simp [Channel.send, Selector.register_callback, Registry.find_assign]

/-- When the post is rejected the callback variants leave the registry as it was. -/
theorem Channel.rejected_post_keeps_registry (ch : Channel) (buffer : Buffer) (length : Nat)
    (offset : Int) (done : DoneCallBack) (post_ret : Int) (hp : post_ret ≠ 0) (s : State) :
    (Channel.recv ch buffer offset done post_ret s).callbacks_ = s.callbacks_ ∧
    (Channel.send ch buffer length offset done post_ret s).callbacks_ = s.callbacks_ := by
  simp [Channel.recv, Channel.send, hp]

/-- C4, at a rejected post on a fresh Selector: the future variants return handle 0, whose
callback is never invoked and is not registered; the handle holds the `broken_promise` error
left by the destruction of the unused lambda, not the `channel_exception` of the post. -/
theorem Channel.rejected_post_breaks_promise :
    (Channel.recv_future channel12 buffer8 0 (-1) Selector.init).1 = 0 ∧
    (Channel.recv_future channel12 buffer8 0 (-1) Selector.init).2.promises =
      [PromiseState.ready (Future.exception Exception.broken_promise)] ∧
    (Channel.recv_future channel12 buffer8 0 (-1) Selector.init).2.invoked = [] ∧
    (Channel.recv_future channel12 buffer8 0 (-1) Selector.init).2.callbacks_ = [] ∧
    (Channel.send_future channel12 buffer8 8 0 (-1) Selector.init).1 = 0 ∧
    (Channel.send_future channel12 buffer8 8 0 (-1) Selector.init).2.promises =
      [PromiseState.ready (Future.exception Exception.broken_promise)] ∧
    (Channel.send_future channel12 buffer8 8 0 (-1) Selector.init).2.invoked = [] ∧
    (Channel.send_future channel12 buffer8 8 0 (-1) Selector.init).2.callbacks_ = [] ∧
    PromiseState.ready (Future.exception Exception.broken_promise) ≠
      PromiseState.ready (Future.exception Exception.channel_exception) := by
  decide

/-- The future variants after an accepted post, evaluated on a fresh Selector: a sweep that
polls the completion `wcOk` resolves the handle with `wcOk`, a sweep whose poll returns -1
resolves it with `channel_exception`, and so does the destructor. -/
theorem Channel.accepted_post_resolves_promise :
    (Selector.sweep (pollOne 1 wcOk)
      (Channel.recv_future channel12 buffer8 0 0 Selector.init).2).promises =
      [PromiseState.ready (Future.value wcOk)] ∧
    (Selector.sweep (fun _ => (-1, wcOk))
      (Channel.recv_future channel12 buffer8 0 0 Selector.init).2).promises =
      [PromiseState.ready (Future.exception Exception.channel_exception)] ∧
    (Selector.shutdown (Channel.recv_future channel12 buffer8 0 0 Selector.init).2).promises =
      [PromiseState.ready (Future.exception Exception.channel_exception)] ∧
    (Selector.sweep (pollOne 2 wcOk)
      (Channel.send_future channel12 buffer8 8 0 0 Selector.init).2).promises =
      [PromiseState.ready (Future.value wcOk)] := by
  decide

/-- Counterexample to C8: queue 3 is registered with callback 1 and the poll returns one
completion whose status is not `IBV_WC_SUCCESS`; the callback is invoked with that completion as
a value and with no failure.  The handle of a future variant is resolved with the value too. -/
theorem Selector.failed_status_delivered_as_value :
    wcFlushed.status ≠ IBV_WC_SUCCESS ∧
    (Selector.sweep (pollOne 3 wcFlushed)
      (Selector.register_callback 3 (DoneCallBack.user 1) Selector.init)).invoked =
      [(DoneCallBack.user 1, Future.value wcFlushed)] ∧
    (¬ ∃ e, (DoneCallBack.user 1, Future.exception e) ∈
      (Selector.sweep (pollOne 3 wcFlushed)
        (Selector.register_callback 3 (DoneCallBack.user 1) Selector.init)).invoked) ∧
    (Selector.sweep (pollOne 1 wcFlushed)
      (Channel.recv_future channel12 buffer8 0 0 Selector.init).2).promises =
      [PromiseState.ready (Future.value wcFlushed)] := by
  refine ⟨by decide, by decide, ?_, by decide⟩
  have h : (Selector.sweep (pollOne 3 wcFlushed)
      (Selector.register_callback 3 (DoneCallBack.user 1) Selector.init)).invoked =
      [(DoneCallBack.user 1, Future.value wcFlushed)] := by decide
  rw [h]
  simp

/-- C8 as amended.  When the poll of a registered queue returns exactly one completion, the
sweep invokes the registered callback with that completion as a value, whatever the status the
completion carries; a callback registered on that queue alone receives nothing else in the
sweep, in particular no failure; and when the callback is the lambda of a future variant whose
promise is pending, the handle is resolved with that same value. -/
theorem Selector.completion_delivered_as_value (poll : Cq → Int × ibv_wc) (s : State) (q : Cq)
    (c : DoneCallBack) (hreg : Registry.find q s.callbacks_ = some c)
    (hown : ∀ e ∈ s.callbacks_, e.2 = c → e.1 = q) (hone : (poll q).1 = 1) :
    (c, Future.value (poll q).2) ∈ (Selector.sweep poll s).invoked.drop s.invoked.length ∧
    (∀ x ∈ (Selector.sweep poll s).invoked.drop s.invoked.length,
      x.1 = c → x.2 = Future.value (poll q).2) ∧
    (∀ h, c = DoneCallBack.resolve h → s.promises[h]? = some PromiseState.pending →
      (Selector.sweep poll s).promises[h]? =
        some (PromiseState.ready (Future.value (poll q).2))) := by
  have hmem : (q, c) ∈ s.callbacks_ := Registry.mem_of_find hreg
  refine ⟨?_, ?_, ?_⟩
  · rw [Selector.sweep_invoked, List.drop_left]
    exact List.mem_filterMap.mpr ⟨(q, c), hmem, by simp [hone]⟩
  · rw [Selector.sweep_invoked, List.drop_left]
    intro x hx hxc
    obtain ⟨e, he, hex⟩ := List.mem_filterMap.mp hx
    by_cases h0 : (poll e.1).1 = 0
    · simp [h0] at hex
    · by_cases h1 : (poll e.1).1 = 1
      · simp only [h1, if_true] at hex
        simp only [show ¬ ((1 : Int) = 0) by decide, if_false, Option.some.injEq] at hex
        have hec : e.2 = c := by rw [← hxc, ← hex]
        rw [← hex, ← hown e he hec]
      · simp only [h0, h1, if_false, Option.some.injEq] at hex
        have hec : e.2 = c := by rw [← hxc, ← hex]
        exact absurd (by rw [hown e he hec]; exact hone) h1
  · intro h hc hp
    subst hc
    have := Selector.sweep_resolves poll s q h hmem hown hp (by rw [hone]; decide)
    rw [if_pos hone] at this
    exact this

/-- Witness of the amended C8, at the completion with a failed status. -/
theorem Selector.completion_delivered_as_value_witness :
    Registry.find 3 (Selector.register_callback 3 (DoneCallBack.user 1)
      Selector.init).callbacks_ = some (DoneCallBack.user 1) ∧
    (pollOne 3 wcFlushed 3).1 = 1 ∧
    (DoneCallBack.user 1, Future.value wcFlushed) ∈
      (Selector.sweep (pollOne 3 wcFlushed)
        (Selector.register_callback 3 (DoneCallBack.user 1) Selector.init)).invoked.drop 0 :=
  ⟨by decide, by decide,
    (Selector.completion_delivered_as_value (pollOne 3 wcFlushed)
      (Selector.register_callback 3 (DoneCallBack.user 1) Selector.init) 3
      (DoneCallBack.user 1) (by decide) (by decide) (by decide)).1⟩

/-- Counterexample to C9: a rejected post (return value -1) and an accepted post whose
completion wait fails (return value -1) give the caller the same outcome, in `recv_sync` and in
`send_sync`. -/
theorem Channel.sync_failures_same_value :
    (Channel.recv_sync channel12 buffer8 0 (-1) (1, wcOk) Selector.init).1 =
      (Channel.recv_sync channel12 buffer8 0 0 (-1, wcOk) Selector.init).1 ∧
    (Channel.send_sync channel12 buffer8 8 0 (-1) (1, wcOk) Selector.init).1 =
      (Channel.send_sync channel12 buffer8 8 0 0 (-1, wcOk) Selector.init).1 :=
  ⟨rfl, rfl⟩

/-- C9 as amended.  In `recv_sync` and `send_sync` a rejected post and a failed completion wait
both surface as the one exception `channel_exception`, with the one message "channel fail"; the
two failures are equal values, and each differs from every successful result. -/
theorem Channel.sync_failures_coincide (ch : Channel) (buffer : Buffer) (length : Nat)
    (offset : Int) (post_ret : Int) (comp1 comp2 : Int × ibv_wc) (s : State)
    (hpost : post_ret ≠ 0) (hwait : comp2.1 < 0) :
    (Channel.recv_sync ch buffer offset post_ret comp1 s).1 =
      Except.error Exception.channel_exception ∧
    (Channel.recv_sync ch buffer offset 0 comp2 s).1 =
      Except.error Exception.channel_exception ∧
    (Channel.send_sync ch buffer length offset post_ret comp1 s).1 =
      Except.error Exception.channel_exception ∧
    (Channel.send_sync ch buffer length offset 0 comp2 s).1 =
      Except.error Exception.channel_exception ∧
    Exception.channel_exception.what = "channel fail" ∧
    (∀ wc : ibv_wc, (Except.error Exception.channel_exception : Except Exception ibv_wc) ≠
      Except.ok wc) := by
  refine ⟨?_, ?_, ?_, ?_, rfl, fun wc h => by cases h⟩
  · simp [Channel.recv_sync, hpost]
  · simp [Channel.recv_sync, hwait]
  · simp [Channel.send_sync, hpost]
  · simp [Channel.send_sync, hwait]

/-- Witness of the amended C9. -/
theorem Channel.sync_failures_coincide_witness :
    ((-1 : Int) ≠ 0) ∧ ((-1, wcOk) : Int × ibv_wc).1 < 0 ∧
    (Channel.recv_sync channel12 buffer8 0 (-1) (1, wcOk) Selector.init).1 =
      Except.error Exception.channel_exception ∧
    (Channel.recv_sync channel12 buffer8 0 0 (-1, wcOk) Selector.init).1 =
      Except.error Exception.channel_exception :=
  have h := Channel.sync_failures_coincide channel12 buffer8 8 0 (-1) (1, wcOk) (-1, wcOk)
    Selector.init (by decide) (by decide)
  ⟨by decide, by decide, h.1, h.2.1⟩

/-- C10, at the 8-byte buffer and offset 1: `recv` and `recv_sync` post a receive of 8 bytes
starting at address 1001, so offset plus posted length is 9, beyond the 8 registered bytes. -/
theorem Channel.recv_request_overruns :
    Channel.recv_request buffer8 1 = (1001, 8) ∧
    (Channel.recv channel12 buffer8 1 (DoneCallBack.user 1) 0 Selector.init).hw =
      [HwCall.post_recv 1001 8] ∧
    (Channel.recv_sync channel12 buffer8 1 0 (1, wcOk) Selector.init).2.hw =
      [HwCall.post_recv 1001 8, HwCall.get_recv_comp] ∧
    ¬ ((1 : Int) + ((Channel.recv_request buffer8 1).2 : Int) ≤ (buffer8.length : Int)) := by
  decide

/-- The receive request always starts at `addr + offset` and always has the full length of the
buffer, so for an offset within the buffer it stays inside the registered region exactly when
the offset is 0. -/
theorem Channel.recv_request_in_bounds_iff (buffer : Buffer) (offset : Int) (h0 : 0 ≤ offset) :
    (Channel.recv_request buffer offset).1 = (buffer.addr : Int) + offset ∧
    (Channel.recv_request buffer offset).2 = buffer.length ∧
    (offset + ((Channel.recv_request buffer offset).2 : Int) ≤ (buffer.length : Int) ↔
      offset = 0) := by
  refine ⟨rfl, rfl, ?_⟩
  simp only [Channel.recv_request]
  omega

end rdma
